import Mathlib

/-!
Verification of the negative-sampling loss layer
(`chainer/links/loss/negative_sampling.py`).

The link source holds: the constructor (smoothing of the counts, building of
the alias sampler, zero initialization of the weight matrix `W`), the device
migration methods `to_cpu` / `to_gpu`, and `forward`, which delegates to the
function `chainer.functions.loss.negative_sampling.negative_sampling`.
The sampler class `chainer.utils.walker_alias.WalkerAlias` and the inner
loss function are not part of the excerpt, so they are modelled from the
specification and marked as such in their doc comments.

Real numbers stand in for the floating-point values of the source; lists
stand in for numpy arrays.
-/

/-- Errors of the modelled core, named as in the specification:
`invalidDistribution` for a bad weight vector at sampler construction,
`invalidArgument` for a bad `reduce` option or mismatched batch shapes,
`indexOutOfRange` for a label index outside `[0, vocab_size)`. -/
inductive ChainerError where
  | invalidDistribution
  | invalidArgument
  | indexOutOfRange
deriving DecidableEq, Repr

/-- Modelled from the spec: `chainer.utils.walker_alias.WalkerAlias` is not
under `src/`.  Per the spec the constructor validates the weight vector
(nonempty, no negative entry, not all zero) and builds immutable alias
tables whose induced sampling distribution reproduces the normalized
weights, i.e. index `i` is drawn with probability `w[i] / Σ w`.  The state
records the validated weight vector, which determines the tables, together
with the device tag toggled by `to_cpu` / `to_gpu`. -/
structure WalkerAlias where
  weights : List ℝ
  onGpu : Bool

/-- Modelled from the spec: sampler construction fails with
`InvalidDistributionError` when the weight vector is empty, has a negative
entry, or carries no positive mass; otherwise the tables are built. -/
noncomputable def WalkerAlias.construct (w : List ℝ) : Except ChainerError WalkerAlias :=
  if w.length = 0 then Except.error ChainerError.invalidDistribution
  else if ∃ a ∈ w, a < 0 then Except.error ChainerError.invalidDistribution
  else if w.sum ≤ 0 then Except.error ChainerError.invalidDistribution
  else Except.ok (WalkerAlias.mk w false)

/-- The sampling distribution induced by the alias tables: per the spec
invariant, index `i` is drawn with probability `w[i] / Σ w`. -/
noncomputable def WalkerAlias.dist (s : WalkerAlias) (i : ℕ) : ℝ :=
  s.weights.getD i 0 / s.weights.sum

/-- Modelled from the spec: `WalkerAlias.to_cpu` is not under `src/`;
migration copies the tables verbatim and only moves the device tag. -/
def WalkerAlias.toCpu (s : WalkerAlias) : WalkerAlias :=
  WalkerAlias.mk s.weights false

/-- Modelled from the spec: `WalkerAlias.to_gpu`, as `WalkerAlias.toCpu`. -/
def WalkerAlias.toGpu (s : WalkerAlias) : WalkerAlias :=
  WalkerAlias.mk s.weights true

/-- The state of the `NegativeSampling` link: `sample_size`, the sampler,
the weight parameter `W` (a `vocab_size × in_size` matrix as a list of
rows), and the device tag of the link itself. -/
structure NegativeSampling where
  sample_size : ℕ
  sampler : WalkerAlias
  W : List (List ℝ)
  onGpu : Bool

/-- `NegativeSampling.__init__`: `vocab_size = len(counts)`; the counts are
raised elementwise to `power` (`numpy.power(p, power, p)`); the sampler is
built from the smoothed weights; `W = Parameter(0, (vocab_size, in_size))`,
which per the spec is the zero-initialized `vocab_size × in_size` matrix.
The `float32` cast of the source is modelled by exact reals. -/
noncomputable def NegativeSampling.init (in_size : ℕ) (counts : List ℕ)
    (sample_size : ℕ) (power : ℝ) : Except ChainerError NegativeSampling :=
  let p := counts.map (fun c : ℕ => (c : ℝ) ^ power)
  (WalkerAlias.construct p).map (fun s =>
    NegativeSampling.mk sample_size s
      (List.replicate counts.length (List.replicate in_size (0 : ℝ))) false)

/-- `NegativeSampling.to_cpu`: migrates the parameters and the sampler to
the CPU and returns the (updated) link itself. -/
def NegativeSampling.toCpu (l : NegativeSampling) : NegativeSampling :=
  NegativeSampling.mk l.sample_size l.sampler.toCpu l.W false

/-- `NegativeSampling.to_gpu`: migrates the parameters and the sampler to
the GPU and returns the (updated) link itself. -/
def NegativeSampling.toGpu (l : NegativeSampling) : NegativeSampling :=
  NegativeSampling.mk l.sample_size l.sampler.toGpu l.W true

/-- Dot product of two vectors (rows), as computed by the loss kernel. -/
def dot (a b : List ℝ) : ℝ :=
  (List.zipWith (fun u v => u * v) a b).sum

/-- Row `i` of the weight matrix `W`. -/
def row (W : List (List ℝ)) (i : ℕ) : List ℝ :=
  W.getD i []

/-- The logistic sigmoid. -/
noncomputable def sigmoid (z : ℝ) : ℝ :=
  1 / (1 + Real.exp (-z))

/-- The softplus `log(1 + exp z)`: the numerically stable form of
`-log(sigmoid (-z))` demanded by the spec's numerical contract. -/
noncomputable def softplus (z : ℝ) : ℝ :=
  Real.log (1 + Real.exp z)

/-- Modelled from the spec: the per-example loss of the inner function
`chainer.functions.loss.negative_sampling` (not under `src/`), in its
stable log-sigmoid form: the positive score contributes
`log(1 + exp (-z_pos))` and each sampled negative `j` contributes
`log(1 + exp z_neg_j)`. -/
noncomputable def perExampleLoss (W : List (List ℝ)) (xb : List ℝ)
    (tb : ℕ) (negs : List ℕ) : ℝ :=
  softplus (-(dot xb (row W tb))) +
    (negs.map (fun j => softplus (dot xb (row W j)))).sum

/-- The per-example losses of a batch: example `b` pairs row `x[b]` and
label `t[b]` with the `b`-th row of the drawn sample matrix. -/
noncomputable def lossList (W : List (List ℝ)) (x : List (List ℝ))
    (t : List ℕ) (samples : List (List ℕ)) : List ℝ :=
  List.zipWith (fun p negs => perExampleLoss W p.1 p.2 negs) (x.zip t) samples

/-- The loss output: a single scalar under `reduce = "sum"`, the ordered
per-example sequence under `reduce = "no"`. -/
inductive LossValue where
  | scalar (v : ℝ)
  | perExample (v : List ℝ)

/-- Reduction of the per-example losses according to `reduce`. -/
noncomputable def reduceLoss (reduce : String) (L : List ℝ) : LossValue :=
  if reduce = "sum" then LossValue.scalar L.sum else LossValue.perExample L

/-- The result of `forward`: the loss value alone, or paired with the
sample matrix when `return_samples` is requested. -/
inductive ForwardResult where
  | lossOnly (l : LossValue)
  | withSamples (l : LossValue) (s : List (List ℕ))

/-- Modelled from the spec: the function
`chainer.functions.loss.negative_sampling.negative_sampling` is not under
`src/`.  Per the spec it rejects a `reduce` option other than `"sum"` or
`"no"` and mismatched batch shapes with `InvalidArgumentError`, fails fast
on a label index outside `[0, vocab_size)`, and otherwise computes the
per-example losses over the drawn sample matrix, reduces them, and returns
the sample matrix as well when `return_samples` is set.  The random draws
are passed in explicitly as `samples` (seed-controlled randomness). -/
noncomputable def negSamplingForward (x : List (List ℝ)) (t : List ℕ)
    (W : List (List ℝ)) (samples : List (List ℕ))
    (reduce : String) (return_samples : Bool) : Except ChainerError ForwardResult :=
  if reduce = "sum" ∨ reduce = "no" then
    if x.length = t.length then
      if ∀ i ∈ t, i < W.length then
        let v := reduceLoss reduce (lossList W x t samples)
        Except.ok (if return_samples then ForwardResult.withSamples v samples
                   else ForwardResult.lossOnly v)
      else Except.error ChainerError.indexOutOfRange
    else Except.error ChainerError.invalidArgument
  else Except.error ChainerError.invalidArgument

/-- `NegativeSampling.forward`: delegates to the inner function with the
link's weight matrix and drawn samples, passing `reduce` and
`return_samples` through (the source parses `return_samples` from kwargs,
defaulting to `False`). -/
noncomputable def NegativeSampling.forward (l : NegativeSampling)
    (x : List (List ℝ)) (t : List ℕ) (samples : List (List ℕ))
    (reduce : String) (return_samples : Bool) : Except ChainerError ForwardResult :=
  negSamplingForward x t l.W samples reduce return_samples

/-! ## Helper lemmas -/

/-- The key log-sigmoid identity behind the stable loss form:
`-log (sigmoid z) = softplus (-z)`. -/
theorem neg_log_sigmoid (z : ℝ) : -Real.log (sigmoid z) = softplus (-z) := by
  simp [sigmoid, softplus, one_div, Real.log_inv]

/-- Summing the elementwise negation of a mapped list negates the sum. -/
theorem sum_map_neg (l : List ℕ) (f : ℕ → ℝ) :
    (l.map (fun j => -(f j))).sum = -((l.map f).sum) := by
  induction l with
  | nil => simp
  | cons a l ih => simp [ih]; ring

/-- A successful sampler construction forces positive total weight and
records exactly the given weight vector. -/
theorem construct_ok (w : List ℝ) (s : WalkerAlias)
    (h : WalkerAlias.construct w = Except.ok s) :
    s.weights = w ∧ 0 < w.sum := by
  unfold WalkerAlias.construct at h
  split_ifs at h with h1 h2 h3
  injection h with h4
  subst h4
  exact ⟨rfl, lt_of_not_le h3⟩

/-! ## Claim theorems -/

/-- C9: migrating the layer between backends with `toCpu` / `toGpu` keeps
the sampler's table contents (hence its sampling distribution), the weight
parameter `W` and `sample_size` unchanged, moves only the device tags, and
each migration method returns the (updated) link itself. -/
theorem migration_preserves_tables (l : NegativeSampling) :
    l.toCpu.sampler.weights = l.sampler.weights ∧
    l.toCpu.sampler.dist = l.sampler.dist ∧
    l.toCpu.W = l.W ∧
    l.toCpu.sample_size = l.sample_size ∧
    l.toCpu.onGpu = false ∧
    l.toGpu.sampler.weights = l.sampler.weights ∧
    l.toGpu.sampler.dist = l.sampler.dist ∧
    l.toGpu.W = l.W ∧
    l.toGpu.sample_size = l.sample_size ∧
    l.toGpu.onGpu = true :=
  ⟨rfl, rfl, rfl, rfl, rfl, rfl, rfl, rfl, rfl, rfl⟩

/-- C3: `forward` with a `reduce` option other than `"sum"` or `"no"`
fails with `InvalidArgumentError` and returns no loss value. -/
theorem forward_invalid_reduce_error (l : NegativeSampling)
    (x : List (List ℝ)) (t : List ℕ) (samples : List (List ℕ))
    (reduce : String) (rs : Bool)
    (h : ¬(reduce = "sum" ∨ reduce = "no")) :
    l.forward x t samples reduce rs = Except.error ChainerError.invalidArgument := by
  unfold NegativeSampling.forward negSamplingForward
  rw [if_neg h]

/-- Witness for C3 at `reduce = "mean"`. -/
theorem forward_invalid_reduce_error_witness :
    (NegativeSampling.mk 2 (WalkerAlias.mk [1] false) [[0]] false).forward
      [[1]] [0] [[0, 0]] "mean" false
      = Except.error ChainerError.invalidArgument :=
  forward_invalid_reduce_error _ _ _ _ _ _ (by decide)

/-- C7: a successful construction initializes `W` as the zero matrix with
`len(counts)` rows and `in_size` columns. -/
theorem init_W_zero_matrix (in_size : ℕ) (counts : List ℕ) (k : ℕ)
    (power : ℝ) (link : NegativeSampling)
    (h : NegativeSampling.init in_size counts k power = Except.ok link) :
    link.W = List.replicate counts.length (List.replicate in_size (0 : ℝ)) ∧
    link.W.length = counts.length ∧
    ∀ r ∈ link.W, r.length = in_size := by
  cases hc : WalkerAlias.construct (counts.map (fun c : ℕ => (c : ℝ) ^ power)) with
  | error e =>
    simp only [NegativeSampling.init, hc, Except.map] at h
    cases h
  | ok s =>
    simp only [NegativeSampling.init, hc, Except.map] at h
    injection h with h4
    subst h4
    refine ⟨rfl, by simp, ?_⟩
    intro r hr
    rw [List.eq_of_mem_replicate hr]
    simp

/-- Witness for C7 at `in_size = 2`, `counts = [1]`. -/
theorem init_W_zero_matrix_witness :
    (NegativeSampling.mk 1 (WalkerAlias.mk [1] false) [[0, 0]] false).W
      = List.replicate 1 (List.replicate 2 (0 : ℝ)) :=
  (init_W_zero_matrix 2 [1] 1 1 _
    (by norm_num [NegativeSampling.init, WalkerAlias.construct, Except.map,
      List.replicate])).1

/-- C6: constructing the layer from an empty or an all-zero counts sequence
fails with `InvalidDistributionError` (for any nonzero smoothing exponent,
in particular the default `0.75`); the error result carries no sampler. -/
theorem init_degenerate_counts_error (in_size : ℕ) (counts : List ℕ)
    (k : ℕ) (power : ℝ) (hp : power ≠ 0)
    (h : counts = [] ∨ ∀ c ∈ counts, c = 0) :
    NegativeSampling.init in_size counts k power
      = Except.error ChainerError.invalidDistribution := by
  rcases h with rfl | hz
  · simp [NegativeSampling.init, WalkerAlias.construct, Except.map]
  · have hall : ∀ a ∈ counts.map (fun c : ℕ => (c : ℝ) ^ power), a = 0 := by
      intro a ha
      simp only [List.mem_map] at ha
      obtain ⟨c, hc, rfl⟩ := ha
      rw [hz c hc]
      simp [Real.zero_rpow hp]
    have hsum : (counts.map (fun c : ℕ => (c : ℝ) ^ power)).sum = 0 :=
      List.sum_eq_zero hall
    have hneg : ¬ ∃ a ∈ counts.map (fun c : ℕ => (c : ℝ) ^ power), a < 0 := by
      rintro ⟨a, ha, hlt⟩
      rw [hall a ha] at hlt
      exact lt_irrefl 0 hlt
    by_cases hlen : (counts.map (fun c : ℕ => (c : ℝ) ^ power)).length = 0
    · simp [NegativeSampling.init, WalkerAlias.construct, hlen, Except.map]
    · simp [NegativeSampling.init, WalkerAlias.construct, hlen, hneg, hsum,
        Except.map]

/-- Witness for C6 at `counts = [0, 0, 0]`, `power = 0.75`. -/
theorem init_degenerate_counts_error_witness :
    NegativeSampling.init 4 [0, 0, 0] 2 (3 / 4)
      = Except.error ChainerError.invalidDistribution :=
  init_degenerate_counts_error 4 [0, 0, 0] 2 (3 / 4) (by norm_num)
    (Or.inr (by decide))

/-- C2: a successfully constructed layer holds a sampler built exactly from
the elementwise-smoothed weights `counts[i] ^ power`, and the sampler's
distribution is proportional to those smoothed weights. -/
theorem init_sampler_smoothed (in_size : ℕ) (counts : List ℕ) (k : ℕ)
    (power : ℝ) (link : NegativeSampling)
    (h : NegativeSampling.init in_size counts k power = Except.ok link) :
    link.sampler.weights = counts.map (fun c : ℕ => (c : ℝ) ^ power) ∧
    ∃ c > 0, ∀ i, link.sampler.dist i
        = c * ((counts.map (fun c : ℕ => (c : ℝ) ^ power)).getD i 0) := by
  cases hc : WalkerAlias.construct (counts.map (fun c : ℕ => (c : ℝ) ^ power)) with
  | error e =>
    simp only [NegativeSampling.init, hc, Except.map] at h
    cases h
  | ok s =>
    simp only [NegativeSampling.init, hc, Except.map] at h
    injection h with h4
    subst h4
    obtain ⟨hw, hpos⟩ := construct_ok _ _ hc
    refine ⟨hw, ((counts.map (fun c : ℕ => (c : ℝ) ^ power)).sum)⁻¹,
      inv_pos.mpr hpos, ?_⟩
    intro i
    unfold WalkerAlias.dist
    rw [hw, div_eq_mul_inv, mul_comm]

/-- Witness for C2 at `counts = [3, 1]`, `power = 1`. -/
theorem init_sampler_smoothed_witness :
    (NegativeSampling.mk 1 (WalkerAlias.mk [3, 1] false) [[0], [0]] false).sampler.weights
        = [3, 1].map (fun c : ℕ => (c : ℝ) ^ (1 : ℝ)) ∧
    ∃ c > 0, ∀ i,
      (NegativeSampling.mk 1 (WalkerAlias.mk [3, 1] false) [[0], [0]] false).sampler.dist i
        = c * (([3, 1].map (fun c : ℕ => (c : ℝ) ^ (1 : ℝ))).getD i 0) :=
  init_sampler_smoothed 1 [3, 1] 1 1 _
    (by norm_num [NegativeSampling.init, WalkerAlias.construct, Except.map,
      Real.rpow_one, List.replicate])

/-- C8: a label index at or beyond `vocab_size` makes `forward` fail fast
with an error instead of wrapping or clamping and returning a loss. -/
theorem forward_out_of_range_label_error (l : NegativeSampling)
    (x : List (List ℝ)) (t : List ℕ) (samples : List (List ℕ))
    (reduce : String) (rs : Bool)
    (hr : reduce = "sum" ∨ reduce = "no")
    (hlen : x.length = t.length)
    (hi : ∃ i ∈ t, l.W.length ≤ i) :
    l.forward x t samples reduce rs = Except.error ChainerError.indexOutOfRange := by
  have hnot : ¬ ∀ i ∈ t, i < l.W.length := by
    obtain ⟨i, hit, hge⟩ := hi
    intro hall
    exact absurd (hall i hit) (not_lt.mpr hge)
  unfold NegativeSampling.forward negSamplingForward
  rw [if_pos hr, if_pos hlen, if_neg hnot]

/-- Witness for C8: vocabulary of size 1, label 5. -/
theorem forward_out_of_range_label_error_witness :
    (NegativeSampling.mk 1 (WalkerAlias.mk [1] false) [[0]] false).forward
      [[1]] [5] [[0]] "sum" false = Except.error ChainerError.indexOutOfRange :=
  forward_out_of_range_label_error _ _ _ _ _ _ (Or.inl rfl) rfl
    ⟨5, by decide, by norm_num⟩

/-- C4: under identical random draws, `forward` with `reduce = "sum"`
returns exactly the sum of the per-example values that `forward` with
`reduce = "no"` returns. -/
theorem forward_sum_eq_sum_of_no (l : NegativeSampling)
    (x : List (List ℝ)) (t : List ℕ) (samples : List (List ℕ))
    (hlen : x.length = t.length) (hidx : ∀ i ∈ t, i < l.W.length) :
    l.forward x t samples "no" false
        = Except.ok (ForwardResult.lossOnly
            (LossValue.perExample (lossList l.W x t samples))) ∧
    l.forward x t samples "sum" false
        = Except.ok (ForwardResult.lossOnly
            (LossValue.scalar (lossList l.W x t samples).sum)) := by
  constructor
  · unfold NegativeSampling.forward negSamplingForward
    rw [if_pos (Or.inr rfl), if_pos hlen, if_pos hidx]
    simp +decide [reduceLoss]
  · unfold NegativeSampling.forward negSamplingForward
    rw [if_pos (Or.inl rfl), if_pos hlen, if_pos hidx]
    simp +decide [reduceLoss]

/-- Witness for C4 at a one-example batch. -/
theorem forward_sum_eq_sum_of_no_witness :
    (NegativeSampling.mk 1 (WalkerAlias.mk [1] false) [[2]] false).forward
        [[1]] [0] [[0]] "no" false
        = Except.ok (ForwardResult.lossOnly
            (LossValue.perExample (lossList [[2]] [[1]] [0] [[0]]))) ∧
    (NegativeSampling.mk 1 (WalkerAlias.mk [1] false) [[2]] false).forward
        [[1]] [0] [[0]] "sum" false
        = Except.ok (ForwardResult.lossOnly
            (LossValue.scalar (lossList [[2]] [[1]] [0] [[0]]).sum)) :=
  forward_sum_eq_sum_of_no _ [[1]] [0] [[0]] rfl (by decide)

/-- C5: with a valid `reduce` option and batch, `forward` with
`return_samples = true` returns the loss paired with exactly the drawn
sample matrix, and with `return_samples = false` (the source's default)
it returns the loss value alone. -/
theorem forward_return_samples_pairing (l : NegativeSampling)
    (x : List (List ℝ)) (t : List ℕ) (samples : List (List ℕ))
    (reduce : String)
    (hr : reduce = "sum" ∨ reduce = "no")
    (hlen : x.length = t.length) (hidx : ∀ i ∈ t, i < l.W.length) :
    l.forward x t samples reduce true
        = Except.ok (ForwardResult.withSamples
            (reduceLoss reduce (lossList l.W x t samples)) samples) ∧
    l.forward x t samples reduce false
        = Except.ok (ForwardResult.lossOnly
            (reduceLoss reduce (lossList l.W x t samples))) := by
  constructor <;>
  · unfold NegativeSampling.forward negSamplingForward
    rw [if_pos hr, if_pos hlen, if_pos hidx]
    simp

/-- Witness for C5 at a one-example batch with `reduce = "sum"`. -/
theorem forward_return_samples_pairing_witness :
    (NegativeSampling.mk 1 (WalkerAlias.mk [1] false) [[2]] false).forward
        [[1]] [0] [[0]] "sum" true
        = Except.ok (ForwardResult.withSamples
            (reduceLoss "sum" (lossList [[2]] [[1]] [0] [[0]])) [[0]]) ∧
    (NegativeSampling.mk 1 (WalkerAlias.mk [1] false) [[2]] false).forward
        [[1]] [0] [[0]] "sum" false
        = Except.ok (ForwardResult.lossOnly
            (reduceLoss "sum" (lossList [[2]] [[1]] [0] [[0]]))) :=
  forward_return_samples_pairing _ [[1]] [0] [[0]] "sum" (Or.inl rfl) rfl
    (by decide)

/-- Upper numeric bound on the positive-score term `log(1 + exp(-1))`. -/
theorem log_one_add_exp_neg_one_lt : Real.log (1 + Real.exp (-1)) < 0.368 := by
  have h1 : Real.exp (-1) < 0.368 := by
    rw [Real.exp_neg]
    calc (Real.exp 1)⁻¹ < (2.7182818283 : ℝ)⁻¹ :=
          inv_strictAnti₀ (by norm_num) Real.exp_one_gt_d9
      _ < 0.368 := by norm_num
  have hpos : (0 : ℝ) < 1 + Real.exp (-1) := by positivity
  have h2 := Real.log_le_sub_one_of_pos hpos
  linarith

/-- Lower numeric bound on the positive-score term `log(1 + exp(-1))`. -/
theorem log_one_add_exp_neg_one_gt : (0.268 : ℝ) < Real.log (1 + Real.exp (-1)) := by
  have he : (0.367 : ℝ) < Real.exp (-1) := by
    rw [Real.exp_neg]
    calc (0.367 : ℝ) < (2.7182818286 : ℝ)⁻¹ := by norm_num
      _ < (Real.exp 1)⁻¹ := inv_strictAnti₀ (Real.exp_pos 1) Real.exp_one_lt_d9
  have hpos : (0 : ℝ) < 1 + Real.exp (-1) := by positivity
  have hinv := Real.log_le_sub_one_of_pos (inv_pos.mpr hpos)
  rw [Real.log_inv] at hinv
  have hinvlt : (1 + Real.exp (-1))⁻¹ < 0.732 := by
    calc (1 + Real.exp (-1))⁻¹ < (1.367 : ℝ)⁻¹ :=
          inv_strictAnti₀ (by norm_num) (by linarith)
      _ < 0.732 := by norm_num
  linarith

/-- C1: the per-example loss equals
`-log(sigmoid(z_pos)) - Σ_j log(sigmoid(-z_neg_j))` with
`z = dot(x[b], W[row])`, and in the concrete scenario
(`counts = [10,1,1,1]`, `power = 0.75`, `sample_size = 2`, `in_size = 4`,
`x = [1,0,0,0]`, `t = [0]`, `W[0] = [1,0,0,0]`, both negatives hitting
zero rows) the returned loss is `-log(sigmoid 1) - 2*log(sigmoid 0)`,
which lies within `0.06` of `1.700`. -/
theorem per_example_loss_formula :
    (∀ (W : List (List ℝ)) (xb : List ℝ) (tb : ℕ) (negs : List ℕ),
      perExampleLoss W xb tb negs
        = -Real.log (sigmoid (dot xb (row W tb)))
          - (negs.map (fun j => Real.log (sigmoid (-(dot xb (row W j)))))).sum) ∧
    (∃ link, NegativeSampling.init 4 [10, 1, 1, 1] 2 (3 / 4) = Except.ok link ∧
      (NegativeSampling.mk link.sample_size link.sampler
          [[1, 0, 0, 0], [0, 0, 0, 0], [0, 0, 0, 0], [0, 0, 0, 0]]
          link.onGpu).forward
        [[1, 0, 0, 0]] [0] [[1, 2]] "sum" false
        = Except.ok (ForwardResult.lossOnly (LossValue.scalar
            (-Real.log (sigmoid 1) - 2 * Real.log (sigmoid 0)))) ∧
      |(-Real.log (sigmoid 1) - 2 * Real.log (sigmoid 0)) - 17 / 10| < 3 / 50) := by
  have hv1 : -Real.log (sigmoid 1) = softplus (-1) := neg_log_sigmoid 1
  have hv0 : -Real.log (sigmoid 0) = softplus 0 := by
    have h := neg_log_sigmoid 0
    rwa [neg_zero] at h
  constructor
  · intro W xb tb negs
    have hneg : ∀ j : ℕ, Real.log (sigmoid (-(dot xb (row W j))))
        = -softplus (dot xb (row W j)) := by
      intro j
      have h := neg_log_sigmoid (-(dot xb (row W j)))
      rw [neg_neg] at h
      linarith
    unfold perExampleLoss
    simp only [hneg]
    rw [sum_map_neg]
    ring_nf
    linarith [neg_log_sigmoid (dot xb (row W tb))]
  · refine ⟨NegativeSampling.mk 2
      (WalkerAlias.mk [(10 : ℝ) ^ ((3 : ℝ) / 4), 1, 1, 1] false)
      (List.replicate 4 (List.replicate 4 (0 : ℝ))) false, ?_, ?_, ?_⟩
    · have h10 : (0 : ℝ) < (10 : ℝ) ^ ((3 : ℝ) / 4) :=
        Real.rpow_pos_of_pos (by norm_num) _
      have hp : ([10, 1, 1, 1] : List ℕ).map (fun c : ℕ => (c : ℝ) ^ ((3 : ℝ) / 4))
          = [(10 : ℝ) ^ ((3 : ℝ) / 4), 1, 1, 1] := by
        norm_num [Real.one_rpow]
      have hnn : ¬ ∃ a ∈ [(10 : ℝ) ^ ((3 : ℝ) / 4), 1, 1, 1], a < 0 := by
        rintro ⟨a, ha, hlt⟩
        simp only [List.mem_cons, List.not_mem_nil, or_false] at ha
        rcases ha with rfl | rfl | rfl | rfl <;> linarith
      have hsum : ¬ ([(10 : ℝ) ^ ((3 : ℝ) / 4), 1, 1, 1].sum ≤ 0) := by
        simp only [List.sum_cons, List.sum_nil]
        push_neg
        linarith
      have hc : WalkerAlias.construct [(10 : ℝ) ^ ((3 : ℝ) / 4), 1, 1, 1]
          = Except.ok (WalkerAlias.mk [(10 : ℝ) ^ ((3 : ℝ) / 4), 1, 1, 1] false) := by
        unfold WalkerAlias.construct
        rw [if_neg (by norm_num), if_neg hnn, if_neg hsum]
      simp only [NegativeSampling.init, hp, hc, Except.map]
      rfl
    · have hL : (lossList
            [[(1 : ℝ), 0, 0, 0], [0, 0, 0, 0], [0, 0, 0, 0], [0, 0, 0, 0]]
            [[1, 0, 0, 0]] [0] [[1, 2]]).sum
          = softplus (-1) + (softplus 0 + (softplus 0 + 0)) := by
        norm_num [lossList, perExampleLoss, dot, row, List.zip, List.zipWith,
          List.getD_cons_zero, List.getD_cons_succ]
      have hval : softplus (-1) + (softplus 0 + (softplus 0 + 0))
          = -Real.log (sigmoid 1) - 2 * Real.log (sigmoid 0) := by
        linarith
      show negSamplingForward [[1, 0, 0, 0]] [0]
          [[1, 0, 0, 0], [0, 0, 0, 0], [0, 0, 0, 0], [0, 0, 0, 0]]
          [[1, 2]] "sum" false
          = Except.ok (ForwardResult.lossOnly (LossValue.scalar
              (-Real.log (sigmoid 1) - 2 * Real.log (sigmoid 0))))
      unfold negSamplingForward
      rw [if_pos (Or.inl rfl)]
      norm_num [reduceLoss, hL, hval]
      linarith
    · have hsp0 : softplus 0 = Real.log 2 := by
        unfold softplus
        rw [Real.exp_zero]
        norm_num
      have hsp1 : softplus (-1) = Real.log (1 + Real.exp (-1)) := rfl
      have hlog2u := Real.log_two_lt_d9
      have hlog2l := Real.log_two_gt_d9
      have hu := log_one_add_exp_neg_one_lt
      have hl := log_one_add_exp_neg_one_gt
      rw [abs_lt]
      constructor <;> nlinarith [hv1, hv0, hsp0, hsp1]
